import Mathlib

/-!
Verification of the info-search repository: a shallow embedding of the
boolean-query lexer and parser (task3/query_parser.py), the boolean
retrieval engine (task3/boolean_search.py), the inverted-index batch build
(task3/create_index.py with task2/tokenize_lemmatize.py), the TF-IDF
output stage (task4/tf_idf.py), the sparse vector-index build
(task5/create_vector_index.py) and the vector search engine
(task5/vector_search.py), together with theorems settling the stated
properties of these components.

Python floats appear only as TF-IDF weights, norms and similarity scores;
they are embedded as rationals. Where the source computes
`math.sqrt(squared_sum)`, the embedding keeps the squared sum and states
properties of a norm through the hypotheses `0 ≤ n` and `n * n = squared_sum`,
which characterise the square root exactly.
-/

namespace InfoSearch

/-! ## task3/query_parser.py — Lexer

The lexer walks the input with `re` patterns tried in source order at each
position, after skipping whitespace (query_parser.py lines 14-65). Each
pattern is compiled here:

* `\bAND\b`, `\bOR\b`, `\bNOT\b` (IGNORECASE): the regex is matched with
  `regex.match(self.text[self.position:])`, i.e. against the suffix, so the
  leading `\b` always holds (start of the slice followed by a word
  character); only the trailing word boundary is a real constraint.
* `\(`, `\)` match a single parenthesis.
* `"([^"]*)"` matches a double-quoted phrase when a closing quote exists.
* `[^\s()]+` matches a maximal run of non-space non-parenthesis characters.

Keyword values are stored uppercased; TERM values are stored after
Python's `matched_text.strip('"')`, which removes every leading and
trailing double-quote character.
-/

inductive TokType
  | TERM | AND | OR | NOT | LPAREN | RPAREN | EOF
  deriving DecidableEq

structure Token where
  type : TokType
  value : String
  position : Nat
  deriving DecidableEq

/-- Word character of the `\b` boundary in the keyword patterns, the
`re` word class restricted to ASCII (letters, digits, underscore). -/
def isWordChar (c : Char) : Bool := c.isAlphanum || c = '_'

/-- A character the bare-term pattern `[^\s()]+` accepts. -/
def isTermChar (c : Char) : Bool := !c.isWhitespace && c != '(' && c != ')'

/-- Lexer.skip_whitespace (query_parser.py lines 37-39): advance past
whitespace, tracking the position. -/
def skip_whitespace : List Char → Nat → List Char × Nat
  | [], pos => ([], pos)
  | c :: cs, pos =>
      if c.isWhitespace then skip_whitespace cs (pos + 1) else (c :: cs, pos)

/-- Case-insensitive keyword match followed by a `\b` word boundary:
returns the rest of the input after the keyword, or `none`. -/
def matchKeyword : List Char → List Char → Option (List Char)
  | [], [] => some []
  | [], c :: rest => if isWordChar c then none else some (c :: rest)
  | _ :: _, [] => none
  | k :: ks, c :: rest => if c.toUpper = k then matchKeyword ks rest else none

/-- Python `matched_text.strip('"')`: drop double quotes from both ends. -/
def stripQuotes (cs : List Char) : List Char :=
  ((cs.dropWhile (· = '"')).reverse.dropWhile (· = '"')).reverse

inductive QError
  | unknownToken (pos : Nat) (c : Char)
  | emptyQuery
  | expectedToken (expected got : TokType) (pos : Nat)
  | unexpectedEnd (pos : Nat)
  | unexpectedToken (got : TokType) (pos : Nat)
  | outOfFuel
  deriving DecidableEq

/-- Lexer.get_token (query_parser.py lines 41-65): skip whitespace, return
EOF at the end of input, otherwise try the patterns in source order. The
final `.error` mirrors the `raise SyntaxError` on line 65 for a position
where no pattern matches. Returns the token, the remaining input and the
next position. -/
def get_token (cs : List Char) (pos : Nat) :
    Except QError (Token × List Char × Nat) :=
  let s := skip_whitespace cs pos
  match s.1, s.2 with
  | [], p => .ok (⟨.EOF, "", p⟩, [], p)
  | c :: rest, p =>
    match matchKeyword ['A', 'N', 'D'] (c :: rest) with
    | some r => .ok (⟨.AND, "AND", p⟩, r, p + 3)
    | none =>
    match matchKeyword ['O', 'R'] (c :: rest) with
    | some r => .ok (⟨.OR, "OR", p⟩, r, p + 2)
    | none =>
    match matchKeyword ['N', 'O', 'T'] (c :: rest) with
    | some r => .ok (⟨.NOT, "NOT", p⟩, r, p + 3)
    | none =>
    if c = '(' then .ok (⟨.LPAREN, "(", p⟩, rest, p + 1)
    else if c = ')' then .ok (⟨.RPAREN, ")", p⟩, rest, p + 1)
    else if c = '"' && rest.any (· = '"') then
      let inner := rest.takeWhile (· ≠ '"')
      .ok (⟨.TERM, String.mk inner, p⟩, rest.drop (inner.length + 1),
           p + inner.length + 2)
    else
      let run := (c :: rest).takeWhile isTermChar
      if run.isEmpty then .error (.unknownToken p c)
      else .ok (⟨.TERM, String.mk (stripQuotes run), p⟩,
                (c :: rest).drop run.length, p + run.length)

/-- Lexer.tokenize (query_parser.py lines 67-78): collect tokens until EOF.
The fuel argument only bounds the recursion; `tokenize` supplies enough
fuel (`tokenizeAux_ok` below shows it is never exhausted). -/
def tokenizeAux : Nat → List Char → Nat → List Token → Except QError (List Token)
  | 0, _, _, _ => .error .outOfFuel
  | fuel + 1, cs, pos, acc =>
    match get_token cs pos with
    | .error e => .error e
    | .ok (t, rest, pos') =>
      if t.type = .EOF then .ok (acc ++ [t])
      else tokenizeAux fuel rest pos' (acc ++ [t])

def tokenize (s : String) : Except QError (List Token) :=
  tokenizeAux (s.data.length + 1) s.data 0 []

/-! ## task3/query_parser.py — AST and Parser -/

inductive ASTNode
  | TermNode (term : String)
  | AndNode (left right : ASTNode)
  | OrNode (left right : ASTNode)
  | NotNode (operand : ASTNode)
  deriving DecidableEq

/-- The parser's current token: the head of the remaining token list, or a
synthetic EOF token as in Parser.eat (query_parser.py line 121). -/
def headTok : List Token → Token
  | [] => ⟨.EOF, "", 0⟩
  | t :: _ => t

/-- Parser.eat (query_parser.py lines 115-126): consume the current token
if it has the expected type, otherwise raise. -/
def eat (tt : TokType) (ts : List Token) : Except QError (List Token) :=
  if (headTok ts).type = tt then .ok ts.tail
  else .error (.expectedToken tt (headTok ts).type (headTok ts).position)

mutual

/-- Parser.parse_or (query_parser.py lines 134-142). -/
def parse_or (fuel : Nat) (ts : List Token) :
    Except QError (ASTNode × List Token) :=
  match fuel with
  | 0 => .error .outOfFuel
  | fuel + 1 => do
    let (node, ts) ← parse_and fuel ts
    parse_or_loop fuel node ts

/-- The `while self.current_token.type == 'OR'` loop of parse_or. -/
def parse_or_loop (fuel : Nat) (node : ASTNode) (ts : List Token) :
    Except QError (ASTNode × List Token) :=
  match fuel with
  | 0 => .error .outOfFuel
  | fuel + 1 =>
    if (headTok ts).type = .OR then do
      let ts ← eat .OR ts
      let (right, ts) ← parse_and fuel ts
      parse_or_loop fuel (.OrNode node right) ts
    else .ok (node, ts)

/-- Parser.parse_and (query_parser.py lines 144-152). -/
def parse_and (fuel : Nat) (ts : List Token) :
    Except QError (ASTNode × List Token) :=
  match fuel with
  | 0 => .error .outOfFuel
  | fuel + 1 => do
    let (node, ts) ← parse_not fuel ts
    parse_and_loop fuel node ts

/-- The `while self.current_token.type == 'AND'` loop of parse_and. -/
def parse_and_loop (fuel : Nat) (node : ASTNode) (ts : List Token) :
    Except QError (ASTNode × List Token) :=
  match fuel with
  | 0 => .error .outOfFuel
  | fuel + 1 =>
    if (headTok ts).type = .AND then do
      let ts ← eat .AND ts
      let (right, ts) ← parse_not fuel ts
      parse_and_loop fuel (.AndNode node right) ts
    else .ok (node, ts)

/-- Parser.parse_not (query_parser.py lines 154-160): unary NOT applies to
the immediately following factor only. -/
def parse_not (fuel : Nat) (ts : List Token) :
    Except QError (ASTNode × List Token) :=
  match fuel with
  | 0 => .error .outOfFuel
  | fuel + 1 =>
    if (headTok ts).type = .NOT then do
      let ts ← eat .NOT ts
      let (operand, ts) ← parse_factor fuel ts
      .ok (.NotNode operand, ts)
    else parse_factor fuel ts

/-- Parser.parse_factor (query_parser.py lines 162-180). -/
def parse_factor (fuel : Nat) (ts : List Token) :
    Except QError (ASTNode × List Token) :=
  match fuel with
  | 0 => .error .outOfFuel
  | fuel + 1 =>
    if (headTok ts).type = .LPAREN then do
      let ts ← eat .LPAREN ts
      let (node, ts) ← parse_or fuel ts
      let ts ← eat .RPAREN ts
      .ok (node, ts)
    else if (headTok ts).type = .TERM then
      .ok (.TermNode (headTok ts).value, ts.tail)
    else if (headTok ts).type = .EOF then
      .error (.unexpectedEnd (headTok ts).position)
    else
      .error (.unexpectedToken (headTok ts).type (headTok ts).position)

end

/-- Parser.parse (query_parser.py lines 128-132): reject an empty token
list (or a lone EOF), then parse a leading or-expression. Note the source
performs no check that the whole token list was consumed: whatever follows
the leading expression is returned unread and discarded by the caller. -/
def parser_parse (ts : List Token) : Except QError (ASTNode × List Token) :=
  if ts.length = 0 ∨ (ts.length = 1 ∧ (headTok ts).type = .EOF) then
    .error .emptyQuery
  else parse_or (4 * ts.length + 4) ts

/-- QueryParser.parse (query_parser.py lines 189-199): reject a blank
query, tokenize, parse, and return the AST (dropping the unconsumed
tokens, as the source does). -/
def query_parser_parse (q : String) : Except QError ASTNode :=
  if q.data.all Char.isWhitespace then .error .emptyQuery
  else
    match tokenize q with
    | .error e => .error e
    | .ok ts => (parser_parse ts).map Prod.fst

/-! ## task3/boolean_search.py — BooleanSearchEngine

The engine holds the loaded inverted index `lemma → docId → positions`
(a JSON object, embedded as an association list) and the document
universe, the set of all docIds occurring in any posting (load_index,
boolean_search.py lines 39-41). The natasha lemmatization of
`lemmatize_term` is an external collaborator; it is embedded as an
abstract function `normalize : String → String` (the memo cache of the
source is semantically the function itself). -/

abbrev Index := List (String × List (String × List Nat))

/-- Python dictionary lookup on an association list. -/
def lookupStr {α : Type} (l : List (String × α)) (k : String) : Option α :=
  (l.find? (fun p => p.1 == k)).map Prod.snd

/-- BooleanSearchEngine.get_documents_for_term (boolean_search.py lines
62-68): the keys of the posting map of the normalized term, or the empty
set when the lemma is absent from the index. -/
def get_documents_for_term (index : Index) (normalize : String → String)
    (term : String) : Finset String :=
  match lookupStr index (normalize term) with
  | some docs => (docs.map Prod.fst).toFinset
  | none => ∅

/-- The document universe of load_index (boolean_search.py lines 39-41):
the union of the docId keys over all postings. -/
def all_documents (index : Index) : Finset String :=
  index.foldr (fun e acc => (e.2.map Prod.fst).toFinset ∪ acc) ∅

/-- BooleanSearchEngine.execute_ast (boolean_search.py lines 70-89). -/
def execute_ast (index : Index) (normalize : String → String) :
    ASTNode → Finset String
  | .TermNode t => get_documents_for_term index normalize t
  | .AndNode l r => execute_ast index normalize l ∩ execute_ast index normalize r
  | .OrNode l r => execute_ast index normalize l ∪ execute_ast index normalize r
  | .NotNode x => all_documents index \ execute_ast index normalize x

/-- Codepoint-wise lexicographic comparison of strings, the order Python
uses when `sorted` compares `str` keys (on ASCII docIds byte order and
codepoint order coincide). -/
def listCharLe : List Char → List Char → Bool
  | [], _ => true
  | _ :: _, [] => false
  | a :: as, b :: bs =>
    if a.toNat < b.toNat then true
    else if b.toNat < a.toNat then false
    else listCharLe as bs

def sLe (a b : String) : Prop := listCharLe a.data b.data = true

instance : DecidableRel sLe := fun a b =>
  instDecidableEqBool (listCharLe a.data b.data) true

lemma listCharLe_total : ∀ as bs : List Char,
    listCharLe as bs = true ∨ listCharLe bs as = true
  | [], _ => by left; simp [listCharLe]
  | _ :: _, [] => by right; simp [listCharLe]
  | a :: as, b :: bs => by
      rcases Nat.lt_trichotomy a.toNat b.toNat with h | h | h
      · left; simp [listCharLe, h]
      · rcases listCharLe_total as bs with ih | ih
        · left; simp [listCharLe, h, ih]
        · right
          simp only [listCharLe]
          rw [if_neg (by omega), if_neg (by omega)]
          exact ih
      · right; simp [listCharLe, h]

lemma listCharLe_trans : ∀ as bs cs : List Char,
    listCharLe as bs = true → listCharLe bs cs = true → listCharLe as cs = true
  | [], _, _, _, _ => by simp [listCharLe]
  | a :: as, [], _, h, _ => by simp [listCharLe] at h
  | _ :: _, _ :: _, [], _, h => by simp [listCharLe] at h
  | a :: as, b :: bs, c :: cs, h₁, h₂ => by
      simp only [listCharLe] at h₁ h₂ ⊢
      by_cases hab : a.toNat < b.toNat
      · by_cases hbc : b.toNat < c.toNat
        · rw [if_pos (by omega)]
        · rw [if_pos ?_]
          rw [if_neg hbc] at h₂
          by_cases hcb : c.toNat < b.toNat
          · simp [hcb] at h₂
          · omega
      · rw [if_neg hab] at h₁
        by_cases hba : b.toNat < a.toNat
        · simp [hba] at h₁
        · rw [if_neg hba] at h₁
          by_cases hbc : b.toNat < c.toNat
          · rw [if_pos (by omega)]
          · rw [if_neg hbc] at h₂
            by_cases hcb : c.toNat < b.toNat
            · simp [hcb] at h₂
            · rw [if_neg hcb] at h₂
              rw [if_neg (by omega), if_neg (by omega)]
              exact listCharLe_trans as bs cs h₁ h₂

lemma listCharLe_antisymm : ∀ as bs : List Char,
    listCharLe as bs = true → listCharLe bs as = true → as = bs
  | [], [], _, _ => rfl
  | [], _ :: _, _, h => by simp [listCharLe] at h
  | _ :: _, [], h, _ => by simp [listCharLe] at h
  | a :: as, b :: bs, h₁, h₂ => by
      simp only [listCharLe] at h₁ h₂
      by_cases hab : a.toNat < b.toNat
      · rw [if_neg (by omega : ¬ b.toNat < a.toNat), if_pos hab] at h₂
        simp at h₂
      · by_cases hba : b.toNat < a.toNat
        · simp [hba, if_neg hab] at h₁
        · rw [if_neg hab, if_neg hba] at h₁
          rw [if_neg hba, if_neg hab] at h₂
          have hn : a.toNat = b.toNat := by omega
          have hc : a = b := Char.ext (UInt32.toNat.inj (by
            simpa [Char.toNat] using hn))
          rw [hc, listCharLe_antisymm as bs h₁ h₂]

instance : IsTotal String sLe := ⟨fun a b => listCharLe_total a.data b.data⟩

instance : IsTrans String sLe :=
  ⟨fun a b c h h' => listCharLe_trans a.data b.data c.data h h'⟩

instance : IsAntisymm String sLe := by
  refine ⟨fun a b h h' => ?_⟩
  have hd := listCharLe_antisymm a.data b.data h h'
  cases a
  cases b
  exact congrArg String.mk hd

/-- A canonical linearization of a multiset of strings: sort any
representative list; well-defined because sorting a permutation of a list
by a total antisymmetric order yields the same sorted list. -/
def msort (m : Multiset String) : List String :=
  Quot.liftOn m (fun l => l.insertionSort sLe) (fun a b hab =>
    List.eq_of_perm_of_sorted
      (((List.perm_insertionSort sLe a).trans hab).trans
        (List.perm_insertionSort sLe b).symm)
      (List.sorted_insertionSort sLe a) (List.sorted_insertionSort sLe b))

/-- The linearization of a Finset of docIds handed to `sorted`. -/
def finset_sorted (s : Finset String) : List String := msort s.val

/-- Python `str.isdigit` for ASCII docIds: nonempty and all digits. -/
def isdigit (s : String) : Bool := !s.data.isEmpty && s.data.all Char.isDigit

/-- Python `int(s)` on a digit string. -/
def pyIntKey (s : String) : Nat :=
  s.data.foldl (fun n c => 10 * n + (c.toNat - 48)) 0

/-- Ordering of the numeric sort keys `int(x)`. -/
def numLe (a b : String) : Prop := pyIntKey a ≤ pyIntKey b

instance : DecidableRel numLe := fun a b => Nat.decLe (pyIntKey a) (pyIntKey b)

instance : IsTotal String numLe := ⟨fun _ _ => Nat.le_total _ _⟩

instance : IsTrans String numLe := ⟨fun _ _ _ h h' => Nat.le_trans h h'⟩

/-- Modelled from CPython `sorted(xs, key=lambda x: int(x) if x.isdigit() else x)`
(boolean_search.py line 94): the key of an all-digit string is the `int`,
any other key is the string itself, and comparing an `int` key with a `str`
key raises `TypeError`. A comparison sort of a collection containing keys
of both kinds must at some point compare two keys of different kinds — it
has to order every element relative to every other — so such an input
raises; otherwise the result is the stable sort by the (comparable) keys.
Sorting itself is embedded as insertion sort, which is a stable sort like
Python's. -/
def pySortedMixedKey (xs : List String) : Except String (List String) :=
  if xs.any (fun x => isdigit x) && xs.any (fun x => !isdigit x) then
    .error "TypeError: '<' not supported between instances of 'str' and 'int'"
  else if xs.all (fun x => isdigit x) then
    .ok (xs.insertionSort numLe)
  else
    .ok (xs.insertionSort sLe)

/-- BooleanSearchEngine.search (boolean_search.py lines 91-94): evaluate
the AST and sort the resulting set. The Python set iteration order fed to
`sorted` is arbitrary; it is linearized here in lexicographic order, which
does not affect the sorted output or the TypeError behaviour. -/
def bool_search (index : Index) (normalize : String → String) (ast : ASTNode) :
    Except String (List String) :=
  pySortedMixedKey (finset_sorted (execute_ast index normalize ast))

/-! ## task2/tokenize_lemmatize.py — stop words (lines 10-26, reused by
task4/tf_idf.py and task5/vector_search.py) -/

def CONJUNCTIONS : List String :=
  ["и", "а", "но", "или", "однако", "зато", "если", "коли", "когда",
   "лишь", "только", "что", "чтобы", "как", "ежели", "нежели", "хотя",
   "хоть", "пусть", "раз", "кабы", "коль", "дабы", "ибо", "ведь",
   "же", "ли", "да", "неужели", "неужто", "также", "тоже", "причем",
   "причём", "словно", "будто", "что-то", "кое-что"]

def PREPOSITIONS : List String :=
  ["в", "на", "с", "к", "по", "из", "за", "от", "без", "через",
   "для", "при", "о", "об", "у", "под", "над", "между", "перед",
   "около", "вокруг", "возле", "после", "вследствие", "благодаря",
   "вопреки", "наперекор", "исключая", "включая", "ради", "кроме",
   "подобно", "согласно", "посреди", "среди", "внутри", "вне",
   "позади", "напротив", "против", "из-за", "из-под", "мимо",
   "сквозь", "близ", "у", "воз", "к", "поперек", "напоперек"]

def STOP_WORDS : List String := CONJUNCTIONS ++ PREPOSITIONS

/-! ## task5/vector_search.py — VectorSearchEngine -/

/-- The characters of `token.text.strip('.,;:!?()[]""\x27"…«»—')`
(vector_search.py line 68). -/
def punctChars : List Char :=
  ['.', ',', ';', ':', '!', '?', '(', ')', '[', ']', '"', '\'', '…', '«', '»', '—']

/-- Python `str.strip(chars)`: drop the given characters from both ends. -/
def pyStrip (chars : List Char) (cs : List Char) : List Char :=
  ((cs.dropWhile (chars.contains ·)).reverse.dropWhile (chars.contains ·)).reverse

/-- Python `str.lower`, character-wise (ASCII case folding). -/
def pyLower (s : String) : String := String.mk (s.data.map Char.toLower)

/-- Python dictionary lookup on an association list with any key type. -/
def lookupKey {κ α : Type} [BEq κ] (l : List (κ × α)) (k : κ) : Option α :=
  (l.find? (fun p => p.1 == k)).map Prod.snd

/-- Python `self.idf.get(lemma, 0.0)` (vector_search.py line 103). -/
def idfGet (idf : List (String × ℚ)) (lm : String) : ℚ :=
  (lookupStr idf lm).getD 0

/-- One iteration of the token loop of VectorSearchEngine.lemmatize_query
(vector_search.py lines 67-84): strip punctuation, drop empty tokens and
stop words, lemmatize (the natasha lemmatizer is the abstract `lemma_of`,
whose `none` models `token.lemma is None`; the memo cache is the function
itself), and add the lemma to the set when it is in the vocabulary. The
Python set is embedded as a duplicate-free list in insertion order. -/
def lemmatize_query_step (lemma_of : String → Option String)
    (vocabulary : List (String × Nat)) (acc : List String) (t : String) :
    List String :=
  let original := String.mk (pyStrip punctChars t.data)
  if original = "" then acc
  else
    let ol := pyLower original
    if ol ∈ STOP_WORDS then acc
    else
      let lm := match lemma_of t with
        | some l => pyLower l
        | none => ol
      if (lookupStr vocabulary lm).isSome then
        if lm ∈ acc then acc else acc ++ [lm]
      else acc

/-- VectorSearchEngine.lemmatize_query (vector_search.py lines 60-86) on
the token texts of the (lowercased) query. -/
def lemmatize_query (lemma_of : String → Option String)
    (vocabulary : List (String × Nat)) (tokens : List String) : List String :=
  tokens.foldl (lemmatize_query_step lemma_of vocabulary) []

/-- VectorSearchEngine.build_query_vector (vector_search.py lines 88-111)
up to the final `math.sqrt`: count each lemma of the incoming collection,
divide by the total count, scale by the stored IDF (default 0) for the
lemmas present in the vocabulary, and return the sparse vector together
with the squared sum of its weights (the source returns
`sqrt(squared_sum)` as the norm). The defaultdict key order is embedded
through `List.dedup`; as a finite mapping the result does not depend on
that order, and the engine always calls this on the duplicate-free output
of lemmatize_query, on which `dedup` is the identity. -/
def build_query_vector (vocabulary : List (String × Nat))
    (idf : List (String × ℚ)) (query_lemmas : List String) :
    List (Nat × ℚ) × ℚ :=
  let total : ℚ := query_lemmas.length
  let entries := query_lemmas.dedup.filterMap (fun lm =>
    match lookupStr vocabulary lm with
    | some idx =>
        some (idx, ((query_lemmas.count lm : ℚ) / total) * idfGet idf lm)
    | none => none)
  (entries, (entries.map (fun p => p.2 * p.2)).sum)

/-- The squared Euclidean norm of a sparse vector: the `squared_sum`
accumulated by the source before it takes `math.sqrt`. -/
def sum_sq (v : List (Nat × ℚ)) : ℚ := (v.map (fun p => p.2 * p.2)).sum

/-- The dot-product loop of cosine_similarity (vector_search.py lines
118-122): over the query entries whose index is present in the document
vector. -/
def dot_product (qv dv : List (Nat × ℚ)) : ℚ :=
  (qv.map (fun p =>
    match lookupKey dv p.1 with
    | some d => p.2 * d
    | none => 0)).sum

/-- VectorSearchEngine.cosine_similarity (vector_search.py lines 113-124):
0 whenever either norm is 0, otherwise the dot product divided by the
product of the norms. -/
def cosine_similarity (query_vector : List (Nat × ℚ)) (query_norm : ℚ)
    (doc_vector : List (Nat × ℚ)) (doc_norm : ℚ) : ℚ :=
  if query_norm = 0 ∨ doc_norm = 0 then 0
  else dot_product query_vector doc_vector / (query_norm * doc_norm)

/-! ## task4/tf_idf.py — lemma TF-IDF output -/

/-- The lemma output loop of tf_idf.main (tf_idf.py lines 287-298): one
line `lemma idf tf_idf` per lemma of the document's lemma list, sorted;
`tf = lemma_counts.get(lemma, 0) / total_tokens` and
`idf = lemma_idf.get(lemma, 0)`. A line is written whether or not
`tf * idf` is zero. -/
def lemma_tfidf_lines (lemmas : List String)
    (lemma_counts : List (String × Nat)) (total_tokens : ℚ)
    (lemma_idf : List (String × ℚ)) : List (String × ℚ × ℚ) :=
  (lemmas.insertionSort sLe).map (fun lm =>
    let tf := (((lookupStr lemma_counts lm).getD 0 : ℚ)) / total_tokens
    let idf := (lookupStr lemma_idf lm).getD 0
    (lm, idf, tf * idf))

/-! ## task5/create_vector_index.py -/

/-- create_vector_index.build_sparse_vectors (create_vector_index.py lines
55-78), with the final `math.sqrt` kept as the squared sum: for each
document, every in-vocabulary lemma of its tf-idf map is stored at its
vocabulary index — the weight is stored whether or not it is zero — and
the squared norm accumulates the squares of exactly the stored weights. -/
def build_sparse_vectors (doc_vectors : List (String × List (String × ℚ)))
    (vocabulary : List (String × Nat)) :
    List (String × List (Nat × ℚ)) × List (String × ℚ) :=
  (doc_vectors.map (fun dv =>
      (dv.1, dv.2.filterMap (fun p =>
        (lookupStr vocabulary p.1).map (fun idx => (idx, p.2))))),
   doc_vectors.map (fun dv =>
      (dv.1, sum_sq (dv.2.filterMap (fun p =>
        (lookupStr vocabulary p.1).map (fun idx => (idx, p.2)))))))

/-! ## task3/create_index.py — batch inverted-index build -/

/-- Python dictionary assignment `d[k] = v` on an association list. -/
def setKey {α : Type} (l : List (String × α)) (k : String) (v : α) :
    List (String × α) :=
  if (l.find? (fun p => p.1 == k)).isSome then
    l.map (fun p => if p.1 == k then (k, v) else p)
  else l ++ [(k, v)]

/-- The merge loop of create_inverted_index (create_index.py lines 54-55):
`global_index[lemma][doc_id] = sorted(list(set(positions)))`. Unreachable
in this build (see unpack_three), embedded for completeness. -/
def merge_doc_index (gi : Index) (doc_id : String)
    (doc_index : List (String × List Nat)) : Index :=
  doc_index.foldl (fun gi p =>
    setKey gi p.1
      (setKey ((lookupStr gi p.1).getD []) doc_id
        ((p.2.dedup).insertionSort (· ≤ ·)))) gi

/-- The statement `_, _, doc_index = process_text(text)` of
create_inverted_index (create_index.py line 52): process_text
(task2/tokenize_lemmatize.py line 133) returns the PAIR
`(tokens_set, lemma_to_tokens)`, and unpacking a 2-tuple into three
targets raises ValueError in Python. The `ok` payload is the
lemma → positions map that `doc_index` is subsequently used as; it is
never produced. -/
def unpack_three (_ : List String × List (String × List String)) :
    Except String (List (String × List Nat)) :=
  .error "ValueError: not enough values to unpack (expected 3, got 2)"

/-- The document loop of create_inverted_index (create_index.py lines
43-55) over the corpus as (docId, extraction outcome) pairs in processing
order. An extraction outcome of `.error e` models extract_text_from_html
raising; nothing in the loop catches it, so it propagates out of the
build. `if not text: continue` skips a document with empty extracted
text. The per-document processing `_, _, doc_index = process_text(text)`
raises ValueError (see unpack_three), which likewise propagates. -/
def create_inverted_index_loop
    (process_text : String → List String × List (String × List String)) :
    List (String × Except String String) → Index → Except String Index
  | [], global_index => .ok global_index
  | (doc_id, res) :: docs, global_index =>
    match res with
    | .error e => .error e
    | .ok text =>
      if text = "" then create_inverted_index_loop process_text docs global_index
      else
        match unpack_three (process_text text) with
        | .error e => .error e
        | .ok doc_index =>
            create_inverted_index_loop process_text docs
              (merge_doc_index global_index doc_id doc_index)

/-- create_index.create_inverted_index (create_index.py lines 32-63),
starting from the empty global index. -/
def create_inverted_index
    (process_text : String → List String × List (String × List String))
    (docs : List (String × Except String String)) : Except String Index :=
  create_inverted_index_loop process_text docs []

/-! ## Lemma layer -/

/-! ### Totality of the lexer -/

lemma skip_whitespace_length (cs : List Char) (pos : Nat) :
    (skip_whitespace cs pos).1.length ≤ cs.length := by
  induction cs generalizing pos with
  | nil => simp [skip_whitespace]
  | cons c cs ih =>
      by_cases h : c.isWhitespace
      · simp only [skip_whitespace, h, if_true]
        exact (ih (pos + 1)).trans (by simp)
      · simp [skip_whitespace, h]

lemma skip_whitespace_head {cs : List Char} {pos : Nat} {c : Char} {rest : List Char}
    (h : (skip_whitespace cs pos).1 = c :: rest) : c.isWhitespace = false := by
  induction cs generalizing pos with
  | nil => simp [skip_whitespace] at h
  | cons a cs ih =>
      by_cases ha : a.isWhitespace
      · rw [show skip_whitespace (a :: cs) pos = skip_whitespace cs (pos + 1) by
          simp [skip_whitespace, ha]] at h
        exact ih h
      · rw [show skip_whitespace (a :: cs) pos = (a :: cs, pos) by
          simp [skip_whitespace, ha]] at h
        cases h
        simpa using ha

lemma matchKeyword_length {kw cs r : List Char}
    (h : matchKeyword kw cs = some r) : kw.length + r.length = cs.length := by
  induction kw generalizing cs with
  | nil =>
      cases cs with
      | nil => simp [matchKeyword] at h; simp [h]
      | cons c rest =>
          by_cases hw : isWordChar c
          · simp [matchKeyword, hw] at h
          · simp [matchKeyword, hw] at h; simp [← h]
  | cons k ks ih =>
      cases cs with
      | nil => simp [matchKeyword] at h
      | cons c rest =>
          by_cases hc : c.toUpper = k
          · simp only [matchKeyword, hc, if_true] at h
            have := ih h
            simp only [List.length_cons]
            omega
          · simp [matchKeyword, hc] at h

/-- Lexer.get_token is total: at every position it returns either the EOF
token (with nothing left) or a non-EOF token that consumed at least one
character; the `raise SyntaxError` for an unknown token (query_parser.py
line 65) is unreachable, because the bare-term pattern accepts any
non-space, non-parenthesis character. -/
lemma get_token_total (cs : List Char) (pos : Nat) :
    (∃ p, get_token cs pos = .ok (⟨.EOF, "", p⟩, [], p)) ∨
    (∃ t rest pos', get_token cs pos = .ok (t, rest, pos') ∧
      t.type ≠ .EOF ∧ rest.length < cs.length) := by
  rcases hs : skip_whitespace cs pos with ⟨cs', p⟩
  have hlen : cs'.length ≤ cs.length := by
    have := skip_whitespace_length cs pos
    rw [hs] at this
    exact this
  cases cs' with
  | nil =>
      left
      refine ⟨p, ?_⟩
      simp [get_token, hs]
  | cons c rest =>
      right
      have hc : c.isWhitespace = false := skip_whitespace_head (by rw [hs])
      have hlen' : rest.length + 1 ≤ cs.length := by simpa using hlen
      rcases hAND : matchKeyword ['A', 'N', 'D'] (c :: rest) with _ | r
      case some =>
        refine ⟨⟨.AND, "AND", p⟩, r, p + 3, ?_, by simp, ?_⟩
        · simp [get_token, hs, hAND]
        · have := matchKeyword_length hAND
          simp at this
          omega
      rcases hOR : matchKeyword ['O', 'R'] (c :: rest) with _ | r
      case some =>
        refine ⟨⟨.OR, "OR", p⟩, r, p + 2, ?_, by simp, ?_⟩
        · simp [get_token, hs, hAND, hOR]
        · have := matchKeyword_length hOR
          simp at this
          omega
      rcases hNOT : matchKeyword ['N', 'O', 'T'] (c :: rest) with _ | r
      case some =>
        refine ⟨⟨.NOT, "NOT", p⟩, r, p + 3, ?_, by simp, ?_⟩
        · simp [get_token, hs, hAND, hOR, hNOT]
        · have := matchKeyword_length hNOT
          simp at this
          omega
      by_cases hlp : c = '('
      · subst hlp
        refine ⟨⟨.LPAREN, "(", p⟩, rest, p + 1, ?_, by simp, by omega⟩
        simp [get_token, hs, hAND, hOR, hNOT]
      by_cases hrp : c = ')'
      · subst hrp
        refine ⟨⟨.RPAREN, ")", p⟩, rest, p + 1, ?_, by simp, by omega⟩
        simp [get_token, hs, hAND, hOR, hNOT, hlp]
      by_cases hq : c = '"' ∧ rest.any (· = '"')
      · refine ⟨⟨.TERM, String.mk (rest.takeWhile (· ≠ '"')), p⟩,
          rest.drop ((rest.takeWhile (· ≠ '"')).length + 1),
          p + (rest.takeWhile (· ≠ '"')).length + 2, ?_, by simp, ?_⟩
        · simp only [get_token, hs]
          rw [hAND, hOR, hNOT]
          rw [if_neg hlp, if_neg hrp, if_pos (by simp [hq.1, hq.2])]
        · have := List.length_drop ((rest.takeWhile (· ≠ '"')).length + 1) rest
          omega
      · have htc : isTermChar c = true := by
          simp only [isTermChar, Bool.and_eq_true, bne_iff_ne]
          refine ⟨⟨?_, hlp⟩, hrp⟩
          simp [hc]
        have hrun : (c :: rest).takeWhile isTermChar = c :: rest.takeWhile isTermChar := by
          simp [List.takeWhile_cons, htc]
        refine ⟨⟨.TERM, String.mk (stripQuotes ((c :: rest).takeWhile isTermChar)), p⟩,
          (c :: rest).drop ((c :: rest).takeWhile isTermChar).length,
          p + ((c :: rest).takeWhile isTermChar).length, ?_, by simp, ?_⟩
        · simp only [get_token, hs]
          rw [hAND, hOR, hNOT]
          rw [if_neg hlp, if_neg hrp]
          rw [if_neg (by intro hcontra; exact hq (by simpa using hcontra))]
          rw [if_neg (by simp [hrun])]
        · rw [hrun]
          have h2 := (List.takeWhile_sublist (l := rest) isTermChar).length_le
          simp only [List.drop_succ_cons, List.length_cons, List.length_drop]
          omega

/-- With fuel exceeding the input length, tokenizeAux returns the
accumulated tokens followed by the freshly lexed ones, ending in EOF. -/
lemma tokenizeAux_ok : ∀ (fuel : Nat) (cs : List Char) (pos : Nat) (acc : List Token),
    cs.length < fuel →
    ∃ ts p, tokenizeAux fuel cs pos acc = .ok (acc ++ ts ++ [⟨.EOF, "", p⟩])
  | 0, _, _, _, h => absurd h (by omega)
  | fuel + 1, cs, pos, acc, h => by
      rcases get_token_total cs pos with ⟨p, hp⟩ | ⟨t, rest, pos', hok, hne, hlt⟩
      · exact ⟨[], p, by simp [tokenizeAux, hp]⟩
      · have hrest : rest.length < fuel := by omega
        obtain ⟨ts, p, hts⟩ := tokenizeAux_ok fuel rest pos' (acc ++ [t]) hrest
        refine ⟨t :: ts, p, ?_⟩
        simp only [tokenizeAux, hok]
        rw [if_neg (by simpa using hne)]
        rw [hts]
        simp

/-- The lexer is total: tokenization of any string succeeds and the token
list ends with EOF. -/
lemma tokenize_total (s : String) :
    ∃ ts p, tokenize s = .ok (ts ++ [⟨.EOF, "", p⟩]) := by
  obtain ⟨ts, p, h⟩ := tokenizeAux_ok (s.data.length + 1) s.data 0 [] (by omega)
  exact ⟨ts, p, by simpa [tokenize] using h⟩

lemma msort_coe (l : List String) :
    msort (l : Multiset String) = l.insertionSort sLe := rfl

lemma mem_msort {m : Multiset String} {a : String} : a ∈ msort m ↔ a ∈ m := by
  induction m using Quotient.inductionOn with
  | h l =>
      show a ∈ l.insertionSort sLe ↔ a ∈ (l : Multiset String)
      rw [Multiset.mem_coe]
      exact (List.perm_insertionSort sLe l).mem_iff

lemma mem_finset_sorted {s : Finset String} {a : String} :
    a ∈ finset_sorted s ↔ a ∈ s := mem_msort

lemma finset_sorted_toFinset (s : Finset String) :
    (finset_sorted s).toFinset = s := by
  ext a
  simp [mem_finset_sorted]


/-! ### Membership facts for the boolean engine -/

lemma mem_all_documents {index : Index} {d : String} :
    d ∈ all_documents index ↔ ∃ e ∈ index, d ∈ e.2.map Prod.fst := by
  induction index with
  | nil => simp [all_documents]
  | cons e idx ih =>
      simp only [all_documents, List.foldr_cons, Finset.mem_union, List.mem_toFinset]
      rw [show idx.foldr (fun e acc => (e.2.map Prod.fst).toFinset ∪ acc) ∅ =
        all_documents idx from rfl]
      simp [ih]

lemma lookupStr_mem {α : Type} {l : List (String × α)} {k : String} {v : α}
    (h : lookupStr l k = some v) : ∃ e ∈ l, e.2 = v := by
  rcases hf : l.find? (fun p => p.1 == k) with _ | e
  · simp [lookupStr, hf] at h
  · have hm := List.mem_of_find?_eq_some hf
    simp only [lookupStr, hf] at h
    simp at h
    exact ⟨e, hm, h⟩

lemma execute_ast_subset (index : Index) (normalize : String → String)
    (ast : ASTNode) : execute_ast index normalize ast ⊆ all_documents index := by
  induction ast with
  | TermNode t =>
      simp only [execute_ast, get_documents_for_term]
      rcases h : lookupStr index (normalize t) with _ | docs
      · simp
      · obtain ⟨e, he, hv⟩ := lookupStr_mem h
        intro d hd
        rw [mem_all_documents]
        exact ⟨e, he, by rw [hv]; simpa using hd⟩
  | AndNode l r ihl ihr =>
      exact (Finset.inter_subset_left).trans ihl
  | OrNode l r ihl ihr =>
      exact Finset.union_subset ihl ihr
  | NotNode x ih =>
      exact Finset.sdiff_subset


/-! ### Cosine-similarity bounds (task5/vector_search.py) -/

/-- The weight a sparse vector gives an index: the looked-up value or 0. -/
def gD (dv : List (Nat × ℚ)) (k : Nat) : ℚ := (lookupKey dv k).getD 0

lemma lookupKey_mem {dv : List (Nat × ℚ)} {k : Nat} {d : ℚ}
    (h : lookupKey dv k = some d) : ∃ e ∈ dv, e.1 = k ∧ e.2 = d := by
  rcases hf : dv.find? (fun p => p.1 == k) with _ | e
  · simp [lookupKey, hf] at h
  · have hm := List.mem_of_find?_eq_some hf
    have hk := List.find?_some hf
    simp only [lookupKey, hf] at h
    simp at h hk
    exact ⟨e, hm, hk, h⟩

lemma sum_sq_nonneg (v : List (Nat × ℚ)) : 0 ≤ sum_sq v := by
  refine List.sum_nonneg ?_
  intro x hx
  obtain ⟨p, _, rfl⟩ := List.mem_map.mp hx
  exact mul_self_nonneg _

lemma dot_product_eq (qv dv : List (Nat × ℚ)) :
    dot_product qv dv = (qv.map (fun p => p.2 * gD dv p.1)).sum := by
  unfold dot_product
  congr 1
  refine List.map_congr_left ?_
  intro p _
  rcases h : lookupKey dv p.1 with _ | d
  · simp [gD, h]
  · simp [gD, h]

lemma dot_product_nonneg (qv dv : List (Nat × ℚ))
    (hq : ∀ p ∈ qv, 0 ≤ p.2) (hd : ∀ p ∈ dv, 0 ≤ p.2) :
    0 ≤ dot_product qv dv := by
  refine List.sum_nonneg ?_
  intro x hx
  obtain ⟨p, hp, rfl⟩ := List.mem_map.mp hx
  rcases h : lookupKey dv p.1 with _ | d
  · simp
  · obtain ⟨e, he, _, hed⟩ := lookupKey_mem h
    simp only []
    exact mul_nonneg (hq p hp) (hed ▸ hd e he)

lemma list_sum_map_getD {α : Type} (l : List α) (f : α → ℚ) (a₀ : α) :
    (l.map f).sum = ∑ i ∈ Finset.range l.length, f (l.getD i a₀) := by
  induction l with
  | nil => simp
  | cons a l ih =>
      rw [List.map_cons, List.sum_cons, List.length_cons,
        Finset.sum_range_succ']
      simp only [List.getD_cons_succ, List.getD_cons_zero]
      rw [ih]
      ring

/-- Cauchy-Schwarz step: the square of the dot product is bounded by the
squared norm of the query times the sum of the squared looked-up document
weights over the query's indices. -/
lemma dot_product_sq_le (qv dv : List (Nat × ℚ)) :
    dot_product qv dv * dot_product qv dv ≤
      sum_sq qv * (qv.map (fun p => gD dv p.1 * gD dv p.1)).sum := by
  rw [dot_product_eq]
  rw [list_sum_map_getD _ _ (0, 0)]
  rw [show sum_sq qv = ∑ i ∈ Finset.range qv.length,
      (qv.getD i (0, 0)).2 * (qv.getD i (0, 0)).2 from
    list_sum_map_getD qv _ (0, 0)]
  rw [list_sum_map_getD _ (fun p => gD dv p.1 * gD dv p.1) (0, 0)]
  have h := Finset.sum_mul_sq_le_sq_mul_sq (Finset.range qv.length)
    (fun i => (qv.getD i (0, 0)).2) (fun i => gD dv (qv.getD i (0, 0)).1)
  calc (∑ i ∈ Finset.range qv.length,
          (qv.getD i (0, 0)).2 * gD dv (qv.getD i (0, 0)).1) *
        (∑ i ∈ Finset.range qv.length,
          (qv.getD i (0, 0)).2 * gD dv (qv.getD i (0, 0)).1)
      = (∑ i ∈ Finset.range qv.length,
          (qv.getD i (0, 0)).2 * gD dv (qv.getD i (0, 0)).1) ^ 2 := by ring
    _ ≤ (∑ i ∈ Finset.range qv.length, (qv.getD i (0, 0)).2 ^ 2) *
        ∑ i ∈ Finset.range qv.length, gD dv (qv.getD i (0, 0)).1 ^ 2 := h
    _ = (∑ i ∈ Finset.range qv.length,
          (qv.getD i (0, 0)).2 * (qv.getD i (0, 0)).2) *
        ∑ i ∈ Finset.range qv.length,
          gD dv (qv.getD i (0, 0)).1 * gD dv (qv.getD i (0, 0)).1 := by
        congr 1
        · exact Finset.sum_congr rfl (fun i _ => by ring)
        · exact Finset.sum_congr rfl (fun i _ => by ring)

lemma lookupKey_filter_ne {dv : List (Nat × ℚ)} {k j : Nat} (hne : k ≠ j) :
    lookupKey (dv.filter (fun e => e.1 != j)) k = lookupKey dv k := by
  induction dv with
  | nil => simp [lookupKey]
  | cons e dv ih =>
      by_cases hej : e.1 = j
      · have : (e.1 == k) = false := by simp [hej]; omega
        simp only [lookupKey, List.filter_cons, List.find?] at ih ⊢
        rw [show (e.1 != j) = false by simp [hej]]
        rw [this]
        exact ih
      · simp only [lookupKey, List.filter_cons, List.find?] at ih ⊢
        rw [show (e.1 != j) = true by simp [hej]]
        simp only [List.find?]
        rcases hek : (e.1 == k) with _ | _
        · simpa [hek] using ih
        · simp [hek]

lemma sum_sq_filter_le (dv : List (Nat × ℚ)) (p : Nat × ℚ → Bool) :
    sum_sq (dv.filter p) ≤ sum_sq dv := by
  induction dv with
  | nil => simp [sum_sq]
  | cons e dv ih =>
      rcases hp : p e with _ | _
      · rw [List.filter_cons, hp]
        simp only [Bool.false_eq_true, if_false, sum_sq, List.map_cons,
          List.sum_cons]
        have := mul_self_nonneg e.2
        simp only [sum_sq] at ih
        linarith
      · rw [List.filter_cons, hp]
        simp only [if_true, sum_sq, List.map_cons, List.sum_cons]
        simp only [sum_sq] at ih
        linarith

lemma gD_sq_add_filter_le (dv : List (Nat × ℚ)) (j : Nat) :
    gD dv j * gD dv j + sum_sq (dv.filter (fun e => e.1 != j)) ≤ sum_sq dv := by
  induction dv with
  | nil => simp [gD, lookupKey, sum_sq]
  | cons e dv ih =>
      by_cases hej : e.1 = j
      · have hg : gD (e :: dv) j = e.2 := by
          simp [gD, lookupKey, List.find?, hej]
        rw [hg]
        rw [show (e :: dv).filter (fun e => e.1 != j) =
            dv.filter (fun e => e.1 != j) by
          simp [List.filter_cons, hej]]
        have h1 := sum_sq_filter_le dv (fun e => e.1 != j)
        simp only [sum_sq, List.map_cons, List.sum_cons] at h1 ⊢
        linarith
      · have hg : gD (e :: dv) j = gD dv j := by
          simp only [gD, lookupKey, List.find?]
          rw [show (e.1 == j) = false by simp; omega]
        rw [hg]
        rw [show (e :: dv).filter (fun e => e.1 != j) =
            e :: dv.filter (fun e => e.1 != j) by
          simp [List.filter_cons, hej]]
        simp only [sum_sq, List.map_cons, List.sum_cons] at ih ⊢
        linarith

lemma sum_gD_sq_le (qv dv : List (Nat × ℚ))
    (h : (qv.map Prod.fst).Nodup) :
    (qv.map (fun p => gD dv p.1 * gD dv p.1)).sum ≤ sum_sq dv := by
  induction qv generalizing dv with
  | nil => simpa using sum_sq_nonneg dv
  | cons p qv ih =>
      rw [List.map_cons, List.nodup_cons] at h
      obtain ⟨hout, htail⟩ := h
      rw [List.map_cons, List.sum_cons]
      have hcongr : (qv.map (fun q => gD dv q.1 * gD dv q.1)).sum =
          (qv.map (fun q =>
            gD (dv.filter (fun e => e.1 != p.1)) q.1 *
            gD (dv.filter (fun e => e.1 != p.1)) q.1)).sum := by
        congr 1
        refine List.map_congr_left ?_
        intro q hq
        have hne : q.1 ≠ p.1 := by
          intro hcontra
          exact hout (hcontra ▸ List.mem_map_of_mem Prod.fst hq)
        rw [gD, gD, lookupKey_filter_ne hne]
      rw [hcongr]
      have h1 := ih (dv.filter (fun e => e.1 != p.1)) htail
      have h2 := gD_sq_add_filter_le dv p.1
      linarith

/-! ### Query lemmatization facts (task5/vector_search.py) -/

/-- The lemma a query token contributes: the lowercased natasha lemma, or
the lowercased stripped token text when the lemmatizer returns none. -/
def query_token_lemma (lemma_of : String → Option String) (t : String) : String :=
  match lemma_of t with
  | some l => pyLower l
  | none => pyLower (String.mk (pyStrip punctChars t.data))

lemma lemmatize_query_step_eq (lemma_of : String → Option String)
    (V : List (String × Nat)) (acc : List String) (t : String) :
    lemmatize_query_step lemma_of V acc t =
      if String.mk (pyStrip punctChars t.data) = "" then acc
      else if pyLower (String.mk (pyStrip punctChars t.data)) ∈ STOP_WORDS then acc
      else if (lookupStr V (query_token_lemma lemma_of t)).isSome then
        (if query_token_lemma lemma_of t ∈ acc then acc
         else acc ++ [query_token_lemma lemma_of t])
      else acc := by
  unfold lemmatize_query_step query_token_lemma
  rcases lemma_of t with _ | l <;> rfl

lemma lemmatize_query_step_cases (lemma_of : String → Option String)
    (V : List (String × Nat)) (acc : List String) (t : String) :
    lemmatize_query_step lemma_of V acc t = acc ∨
    (query_token_lemma lemma_of t ∉ acc ∧
     lemmatize_query_step lemma_of V acc t =
       acc ++ [query_token_lemma lemma_of t]) := by
  rw [lemmatize_query_step_eq]
  split_ifs with h1 h2 h3 h4
  · exact Or.inl rfl
  · exact Or.inl rfl
  · exact Or.inl rfl
  · exact Or.inr ⟨h4, rfl⟩
  · exact Or.inl rfl

lemma lemmatize_query_step_self (lemma_of : String → Option String)
    (V : List (String × Nat)) (acc : List String) (t : String) :
    lemmatize_query_step lemma_of V (lemmatize_query_step lemma_of V acc t) t
      = lemmatize_query_step lemma_of V acc t := by
  rcases lemmatize_query_step_cases lemma_of V acc t with h | ⟨hnot, h⟩
  · rw [h, h]
  · rw [h]
    rw [lemmatize_query_step_eq]
    split_ifs with h1 h2 h3 h4
    · rfl
    · rfl
    · rfl
    · simp at h4
    · rfl

lemma lemmatize_query_aux_nodup (lemma_of : String → Option String)
    (V : List (String × Nat)) :
    ∀ (tokens : List String) (acc : List String), acc.Nodup →
      (tokens.foldl (lemmatize_query_step lemma_of V) acc).Nodup := by
  intro tokens
  induction tokens with
  | nil => intro acc h; simpa using h
  | cons t ts ih =>
      intro acc h
      rw [List.foldl_cons]
      refine ih _ ?_
      rcases lemmatize_query_step_cases lemma_of V acc t with hs | ⟨hnot, hs⟩
      · rw [hs]; exact h
      · rw [hs]
        exact List.Nodup.append h (List.nodup_singleton _)
          (by simpa using hnot)

lemma lemmatize_query_nodup (lemma_of : String → Option String)
    (V : List (String × Nat)) (tokens : List String) :
    (lemmatize_query lemma_of V tokens).Nodup :=
  lemmatize_query_aux_nodup lemma_of V tokens [] List.nodup_nil

lemma lemmatize_query_dup_collapse (lemma_of : String → Option String)
    (V : List (String × Nat)) (pre : List String) (t : String)
    (suf : List String) :
    lemmatize_query lemma_of V (pre ++ t :: t :: suf) =
      lemmatize_query lemma_of V (pre ++ t :: suf) := by
  unfold lemmatize_query
  rw [List.foldl_append, List.foldl_append, List.foldl_cons, List.foldl_cons,
    List.foldl_cons, lemmatize_query_step_self]

lemma build_query_vector_weights (lemma_of : String → Option String)
    (V : List (String × Nat)) (idf : List (String × ℚ))
    (tokens : List String) :
    (build_query_vector V idf (lemmatize_query lemma_of V tokens)).1 =
      (lemmatize_query lemma_of V tokens).filterMap (fun lm =>
        (lookupStr V lm).map (fun idx =>
          (idx, (1 / ((lemmatize_query lemma_of V tokens).length : ℚ)) *
            idfGet idf lm))) := by
  have hnd := lemmatize_query_nodup lemma_of V tokens
  simp only [build_query_vector]
  rw [List.Nodup.dedup hnd]
  refine List.filterMap_congr ?_
  intro lm hlm
  rw [List.count_eq_one_of_mem hnd hlm]
  rcases lookupStr V lm with _ | idx
  · rfl
  · simp

/-! ### Zero norms (task5/create_vector_index.py) -/

lemma sum_sq_eq_zero_iff (v : List (Nat × ℚ)) :
    sum_sq v = 0 ↔ ∀ p ∈ v, p.2 = 0 := by
  induction v with
  | nil => simp [sum_sq]
  | cons p v ih =>
      show p.2 * p.2 + sum_sq v = 0 ↔ _
      rw [add_eq_zero_iff_of_nonneg (mul_self_nonneg _) (sum_sq_nonneg v),
        mul_self_eq_zero, ih]
      simp

/-! ### Batch build behaviour (task3/create_index.py) -/

lemma create_inverted_index_loop_skip_empty
    (pt : String → List String × List (String × List String)) :
    ∀ (docs₁ : List (String × Except String String))
      (rest : List (String × Except String String)) (gi : Index),
      (∀ x ∈ docs₁, x.2 = Except.ok "") →
      create_inverted_index_loop pt (docs₁ ++ rest) gi =
        create_inverted_index_loop pt rest gi := by
  intro docs₁
  induction docs₁ with
  | nil => intro rest gi _; rfl
  | cons d docs ih =>
      intro rest gi h
      have hd : d.2 = Except.ok "" := h d (List.mem_cons_self d docs)
      obtain ⟨id, res⟩ := d
      simp only [] at hd
      rw [List.cons_append]
      show create_inverted_index_loop pt ((id, res) :: (docs ++ rest)) gi = _
      rw [show create_inverted_index_loop pt ((id, res) :: (docs ++ rest)) gi =
          create_inverted_index_loop pt (docs ++ rest) gi by
        rw [hd]
        rfl]
      exact ih rest gi (fun x hx => h x (List.mem_cons_of_mem _ hx))

/-! ## The claims -/

/-- C1, counterexample: contrary to the claim, a query of two bare terms
with no operator between them does NOT raise a syntax error — Parser.parse
returns the leading expression without checking for trailing tokens, so
"a b" parses successfully to Term("a"), silently discarding "b". -/
theorem C1_counterexample : query_parser_parse "a b" = .ok (.TermNode "a") := rfl

/-- C1 (amended): parsing fails with a syntax error on the empty (or
all-whitespace) query and on the unmatched parenthesis "(a", but tokens
remaining after a complete parse of the leading expression are not an
error: "a b" parses to Term("a") with the trailing term ignored. -/
theorem C1_empty_and_unmatched_fail_trailing_ignored :
    query_parser_parse "" = .error .emptyQuery ∧
    query_parser_parse " " = .error .emptyQuery ∧
    query_parser_parse "(a" = .error (.expectedToken .RPAREN .EOF 2) ∧
    query_parser_parse "a b" = .ok (.TermNode "a") :=
  ⟨rfl, rfl, rfl, rfl⟩

/-- C5: the parser implements precedence OR < AND < NOT with
left-associative OR and AND and unary NOT binding only its immediate
factor: "a AND b OR c" parses to Or(And(a,b),c), "a OR b AND c" to
Or(a,And(b,c)), "a AND NOT b" to And(a,Not(b)), "NOT a AND b" to
And(Not(a),b), and chained OR/AND associate to the left. -/
theorem C5_precedence_and_associativity :
    query_parser_parse "a AND b OR c" =
      .ok (.OrNode (.AndNode (.TermNode "a") (.TermNode "b")) (.TermNode "c")) ∧
    query_parser_parse "a OR b AND c" =
      .ok (.OrNode (.TermNode "a") (.AndNode (.TermNode "b") (.TermNode "c"))) ∧
    query_parser_parse "a AND NOT b" =
      .ok (.AndNode (.TermNode "a") (.NotNode (.TermNode "b"))) ∧
    query_parser_parse "NOT a AND b" =
      .ok (.AndNode (.NotNode (.TermNode "a")) (.TermNode "b")) ∧
    query_parser_parse "a OR b OR c" =
      .ok (.OrNode (.OrNode (.TermNode "a") (.TermNode "b")) (.TermNode "c")) ∧
    query_parser_parse "a AND b AND c" =
      .ok (.AndNode (.AndNode (.TermNode "a") (.TermNode "b")) (.TermNode "c")) :=
  ⟨rfl, rfl, rfl, rfl, rfl, rfl⟩

/-- C10, counterexample: the unclosed-quote input consisting of a double
quote followed by "ab" is lexed without failure as a single TERM, but the
token's stored value is "ab" — `matched_text.strip('"')` removes the
leading quote — so its text does NOT include the quote character as the
claim states. -/
theorem C10_counterexample :
    tokenize "\"ab" = .ok [⟨.TERM, "ab", 0⟩, ⟨.EOF, "", 3⟩] ∧
    '"' ∉ "ab".data :=
  ⟨rfl, by decide⟩

/-- C10 (amended): the lexer is total — tokenizing any string succeeds
(the lex error of get_token is unreachable) with a token list ending in
EOF — and an unclosed double quote does not fail: the run is lexed by the
bare-term pattern as one TERM whose stored value is the run with leading
and trailing double-quote characters stripped, interior quotes retained. -/
theorem C10_lexer_total_quote_stripped :
    (∀ s : String, ∃ ts p, tokenize s = .ok (ts ++ [⟨.EOF, "", p⟩])) ∧
    tokenize "\"ab" = .ok [⟨.TERM, "ab", 0⟩, ⟨.EOF, "", 3⟩] ∧
    tokenize "a\"b" = .ok [⟨.TERM, "a\"b", 0⟩, ⟨.EOF, "", 3⟩] :=
  ⟨tokenize_total, rfl, rfl⟩

/-- C4: boolean evaluation satisfies the claimed semantics — a Term
evaluates to the documents having a posting for the normalized term, And
to the intersection, Or to the union, Not to the universe minus the
operand — and a term whose normalized form is absent from the index
evaluates to the empty set rather than raising. -/
theorem C4_execute_ast_semantics :
    ∀ (index : Index) (normalize : String → String) (t : String)
      (l r x : ASTNode) (d : String),
    (d ∈ execute_ast index normalize (.TermNode t) ↔
      ∃ postings, lookupStr index (normalize t) = some postings ∧
        d ∈ postings.map Prod.fst) ∧
    (d ∈ execute_ast index normalize (.AndNode l r) ↔
      d ∈ execute_ast index normalize l ∧ d ∈ execute_ast index normalize r) ∧
    (d ∈ execute_ast index normalize (.OrNode l r) ↔
      d ∈ execute_ast index normalize l ∨ d ∈ execute_ast index normalize r) ∧
    (d ∈ execute_ast index normalize (.NotNode x) ↔
      d ∈ all_documents index ∧ d ∉ execute_ast index normalize x) ∧
    (lookupStr index (normalize t) = none →
      execute_ast index normalize (.TermNode t) = ∅) := by
  intro index normalize t l r x d
  refine ⟨?_, Finset.mem_inter, Finset.mem_union, Finset.mem_sdiff, ?_⟩
  · show d ∈ get_documents_for_term index normalize t ↔ _
    unfold get_documents_for_term
    rcases h : lookupStr index (normalize t) with _ | docs
    · simp
    · simp only [List.mem_toFinset]
      constructor
      · intro hm
        exact ⟨docs, rfl, hm⟩
      · rintro ⟨postings, hp, hm⟩
        cases hp
        exact hm
  · intro h
    show get_documents_for_term index normalize t = ∅
    unfold get_documents_for_term
    rw [h]

/-- C4, witness at a concrete index: the unknown term "zz" evaluates to ∅,
and And evaluates membership as a conjunction. -/
theorem C4_witness :
    execute_ast [("x", [("1", [0])])] id (.TermNode "zz") = ∅ ∧
    ("1" ∈ execute_ast [("x", [("1", [0])])] id
        (.AndNode (.TermNode "x") (.TermNode "x")) ↔
      "1" ∈ execute_ast [("x", [("1", [0])])] id (.TermNode "x") ∧
      "1" ∈ execute_ast [("x", [("1", [0])])] id (.TermNode "x")) :=
  ⟨(C4_execute_ast_semantics [("x", [("1", [0])])] id "zz"
      (.TermNode "x") (.TermNode "x") (.TermNode "x") "1").2.2.2.2 (by decide),
   (C4_execute_ast_semantics [("x", [("1", [0])])] id "x"
      (.TermNode "x") (.TermNode "x") (.TermNode "x") "1").2.1⟩

/-- C9: boolean evaluation satisfies the set-algebra laws — Not is
universe minus operand, double negation cancels (evaluation results are
always inside the universe), And and Or are commutative and associative,
and De Morgan holds. -/
theorem C9_boolean_algebra :
    ∀ (index : Index) (normalize : String → String) (q a b c : ASTNode),
    (execute_ast index normalize (.NotNode q) =
      all_documents index \ execute_ast index normalize q) ∧
    (execute_ast index normalize (.NotNode (.NotNode q)) =
      execute_ast index normalize q) ∧
    (execute_ast index normalize (.AndNode a b) =
      execute_ast index normalize (.AndNode b a)) ∧
    (execute_ast index normalize (.AndNode (.AndNode a b) c) =
      execute_ast index normalize (.AndNode a (.AndNode b c))) ∧
    (execute_ast index normalize (.OrNode a b) =
      execute_ast index normalize (.OrNode b a)) ∧
    (execute_ast index normalize (.OrNode (.OrNode a b) c) =
      execute_ast index normalize (.OrNode a (.OrNode b c))) ∧
    (execute_ast index normalize (.NotNode (.OrNode a b)) =
      execute_ast index normalize (.AndNode (.NotNode a) (.NotNode b))) := by
  intro index normalize q a b c
  refine ⟨rfl, ?_, ?_, ?_, ?_, ?_, ?_⟩
  · show all_documents index \ (all_documents index \
        execute_ast index normalize q) = execute_ast index normalize q
    exact Finset.sdiff_sdiff_eq_self (execute_ast_subset index normalize q)
  · exact Finset.inter_comm _ _
  · exact Finset.inter_assoc _ _ _
  · exact Finset.union_comm _ _
  · exact Finset.union_assoc _ _ _
  · exact Finset.sdiff_union_distrib _ _ _

/-- C7, counterexample: on an index whose postings for "x" name the
documents "1" and "a", evaluating the query Term("x") and sorting raises
TypeError — `int("1")` and `"a"` are incomparable sort keys — where the
claim requires a sorted list without error. -/
theorem C7_counterexample :
    bool_search [("x", [("1", [0]), ("a", [0])])] id (.TermNode "x") =
      .error "TypeError: '<' not supported between instances of 'str' and 'int'" :=
  rfl

/-- C7 (amended): search returns the result set sorted numerically when
every DocId is an all-digit string, and sorted lexicographically when no
DocId is all-digit; but when the result mixes all-digit and non-digit
DocIds the underlying `sorted` call compares an int key with a str key and
raises TypeError instead of returning. -/
theorem C7_sorted_or_type_error :
    ∀ (index : Index) (normalize : String → String) (ast : ASTNode),
    ((∀ d ∈ execute_ast index normalize ast, isdigit d = true) →
      ∃ l, bool_search index normalize ast = .ok l ∧ l.Sorted numLe ∧
        l.toFinset = execute_ast index normalize ast) ∧
    ((∀ d ∈ execute_ast index normalize ast, isdigit d = false) →
      ∃ l, bool_search index normalize ast = .ok l ∧ l.Sorted sLe ∧
        l.toFinset = execute_ast index normalize ast) ∧
    ((∃ d₁ ∈ execute_ast index normalize ast, isdigit d₁ = true) →
     (∃ d₂ ∈ execute_ast index normalize ast, isdigit d₂ = false) →
      bool_search index normalize ast =
        .error "TypeError: '<' not supported between instances of 'str' and 'int'") := by
  intro index normalize ast
  set s := execute_ast index normalize ast with hs
  set R := finset_sorted s with hR
  have hmem : ∀ x, x ∈ R ↔ x ∈ s := fun x => mem_finset_sorted
  refine ⟨?_, ?_, ?_⟩
  · intro hall
    have h2 : R.any (fun x => !isdigit x) = false := by
      rw [List.any_eq_false]
      intro x hx
      rw [hall x ((hmem x).mp hx)]
      simp
    have hAll : R.all (fun x => isdigit x) = true := by
      rw [List.all_eq_true]
      intro x hx
      exact hall x ((hmem x).mp hx)
    refine ⟨R.insertionSort numLe, ?_, ?_, ?_⟩
    · show pySortedMixedKey R = _
      unfold pySortedMixedKey
      rw [h2, hAll]
      simp
    · exact List.sorted_insertionSort numLe R
    · ext a
      simp only [List.mem_toFinset, List.mem_insertionSort]
      exact hmem a
  · intro hall
    have h1 : R.any (fun x => isdigit x) = false := by
      rw [List.any_eq_false]
      intro x hx
      rw [hall x ((hmem x).mp hx)]
      simp
    by_cases hAll : R.all (fun x => isdigit x) = true
    · have hRnil : R = [] := by
        cases hR2 : R with
        | nil => rfl
        | cons hd tl =>
            exfalso
            have hmem0 : hd ∈ R := by rw [hR2]; exact List.mem_cons_self _ _
            have := List.all_eq_true.mp hAll hd hmem0
            rw [hall hd ((hmem hd).mp hmem0)] at this
            exact Bool.false_ne_true this
      refine ⟨[], ?_, List.sorted_nil, ?_⟩
      · show pySortedMixedKey R = _
        unfold pySortedMixedKey
        rw [h1, hAll, hRnil]
        simp
      · have := finset_sorted_toFinset s
        rw [← hR, hRnil] at this
        simpa using this
    · refine ⟨R.insertionSort sLe, ?_, ?_, ?_⟩
      · show pySortedMixedKey R = _
        unfold pySortedMixedKey
        rw [h1]
        rw [if_neg (by simp), if_neg (by simpa using hAll)]
      · exact List.sorted_insertionSort sLe R
      · ext a
        simp only [List.mem_toFinset, List.mem_insertionSort]
        exact hmem a
  · rintro ⟨d₁, hd₁, h₁⟩ ⟨d₂, hd₂, h₂⟩
    have ha1 : R.any (fun x => isdigit x) = true :=
      List.any_eq_true.mpr ⟨d₁, (hmem d₁).mpr hd₁, h₁⟩
    have ha2 : R.any (fun x => !isdigit x) = true :=
      List.any_eq_true.mpr ⟨d₂, (hmem d₂).mpr hd₂, by rw [h₂]; rfl⟩
    show pySortedMixedKey R = _
    unfold pySortedMixedKey
    rw [ha1, ha2]
    rfl

/-- C7, witness: on an all-digit result set the amended statement yields a
numerically sorted output list. -/
theorem C7_witness :
    ∃ l, bool_search [("x", [("2", [0]), ("10", [0])])] id (.TermNode "x") =
        .ok l ∧ l.Sorted numLe ∧
      l.toFinset = execute_ast [("x", [("2", [0]), ("10", [0])])] id (.TermNode "x") :=
  (C7_sorted_or_type_error [("x", [("2", [0]), ("10", [0])])] id
    (.TermNode "x")).1 (by decide)

/-- C8: cosine similarity is 0 whenever either norm is 0 — the guard makes
division by zero impossible — and for nonnegative TF-IDF weights, with the
norms consistent with the vectors (n ≥ 0 and n·n the squared sum, i.e. n
the square root the source computes), every similarity lies in [0,1]. -/
theorem C8_cosine_similarity_bounds :
    ∀ (qv dv : List (Nat × ℚ)) (qn dn : ℚ),
    (∀ p ∈ qv, 0 ≤ p.2) → (∀ p ∈ dv, 0 ≤ p.2) →
    (qv.map Prod.fst).Nodup →
    0 ≤ qn → 0 ≤ dn → qn * qn = sum_sq qv → dn * dn = sum_sq dv →
    ((qn = 0 ∨ dn = 0) → cosine_similarity qv qn dv dn = 0) ∧
    0 ≤ cosine_similarity qv qn dv dn ∧
    cosine_similarity qv qn dv dn ≤ 1 := by
  intro qv dv qn dn hq hd hnd hqn hdn hqs hds
  refine ⟨fun h => by simp [cosine_similarity, h], ?_⟩
  by_cases h0 : qn = 0 ∨ dn = 0
  · simp [cosine_similarity, h0]
  push_neg at h0
  have hqpos : 0 < qn := lt_of_le_of_ne hqn (Ne.symm h0.1)
  have hdpos : 0 < dn := lt_of_le_of_ne hdn (Ne.symm h0.2)
  have hcos : cosine_similarity qv qn dv dn =
      dot_product qv dv / (qn * dn) := by
    unfold cosine_similarity
    rw [if_neg (by push_neg; exact h0)]
  have hdot0 := dot_product_nonneg qv dv hq hd
  have hsq : dot_product qv dv * dot_product qv dv ≤ (qn * dn) * (qn * dn) := by
    have h1 := dot_product_sq_le qv dv
    have h2 := sum_gD_sq_le qv dv hnd
    have h3 := mul_le_mul_of_nonneg_left h2 (sum_sq_nonneg qv)
    calc dot_product qv dv * dot_product qv dv
        ≤ sum_sq qv * (qv.map (fun p => gD dv p.1 * gD dv p.1)).sum := h1
      _ ≤ sum_sq qv * sum_sq dv := h3
      _ = (qn * dn) * (qn * dn) := by rw [← hqs, ← hds]; ring
  have hle : dot_product qv dv ≤ qn * dn := by
    nlinarith [mul_pos hqpos hdpos]
  rw [hcos]
  exact ⟨div_nonneg hdot0 (le_of_lt (mul_pos hqpos hdpos)),
    (div_le_one (mul_pos hqpos hdpos)).mpr hle⟩

/-- C8, witness at concrete vectors (norms 3 and 4 match the squared sums
9 and 16): the similarity of {0↦3} and {0↦4} is defined and within
bounds. -/
theorem C8_witness :
    ((((3 : ℚ) = 0 ∨ (4 : ℚ) = 0)) →
      cosine_similarity [(0, 3)] 3 [(0, 4)] 4 = 0) ∧
    0 ≤ cosine_similarity [(0, 3)] 3 [(0, 4)] 4 ∧
    cosine_similarity [(0, 3)] 3 [(0, 4)] 4 ≤ 1 :=
  C8_cosine_similarity_bounds [(0, 3)] [(0, 4)] 3 4
    (by intro p hp; rw [List.mem_singleton.mp hp]; norm_num)
    (by intro p hp; rw [List.mem_singleton.mp hp]; norm_num)
    (by simp)
    (by norm_num) (by norm_num)
    (by norm_num [sum_sq]) (by norm_num [sum_sq])

/-- C2, counterexample: for the query tokens ["aa","aa","bb"] (the token
"aa" occurs twice) with the identity lemmatizer, unit IDFs and vocabulary
{aa↦0, bb↦1}, the engine computes weight 1/2 for BOTH lemmas — the
duplicate collapses in the lemma set — whereas the claim's formula
(occurrence count 2 / 3 query terms × IDF 1 = 2/3) requires "aa" to carry
twice the term frequency of "bb". -/
theorem C2_counterexample :
    (build_query_vector [("aa", 0), ("bb", 1)] [("aa", 1), ("bb", 1)]
      (lemmatize_query (fun s => some s) [("aa", 0), ("bb", 1)]
        ["aa", "aa", "bb"])).1 = [(0, 1/2), (1, 1/2)] ∧
    ¬ ((2 : ℚ) / 3 * 1 = 1 / 2) := by
  constructor
  · have hl : lemmatize_query (fun s => some s) [("aa", 0), ("bb", 1)]
        ["aa", "aa", "bb"] = ["aa", "bb"] := by decide
    have hd : (["aa", "bb"] : List String).dedup = ["aa", "bb"] := by decide
    have hc1 : (["aa", "bb"] : List String).count "aa" = 1 := by decide
    have hc2 : (["aa", "bb"] : List String).count "bb" = 1 := by decide
    have hv1 : lookupStr [("aa", 0), ("bb", 1)] "aa" = some 0 := by decide
    have hv2 : lookupStr [("aa", 0), ("bb", 1)] "bb" = some 1 := by decide
    have he : ("aa" == "bb") = false := by decide
    rw [hl]
    simp only [build_query_vector, hd, List.filterMap_cons, List.filterMap_nil,
      hv1, hv2, hc1, hc2, List.length_cons, List.length_nil, idfGet, lookupStr,
      List.find?, beq_self_eq_true, he]
    norm_num
  · norm_num

/-- C2 (amended): lemmatize_query collects the query's lemmas into a set,
so a repeated token contributes nothing new (dropping an adjacent
duplicate token leaves the result unchanged), and every retained lemma
receives the same term frequency 1/(number of distinct retained lemmas):
its weight in the query vector is that frequency times the stored IDF. -/
theorem C2_set_semantics_weights :
    (∀ (lemma_of : String → Option String) (V : List (String × Nat))
       (pre : List String) (t : String) (suf : List String),
      lemmatize_query lemma_of V (pre ++ t :: t :: suf) =
        lemmatize_query lemma_of V (pre ++ t :: suf)) ∧
    (∀ (lemma_of : String → Option String) (V : List (String × Nat))
       (idf : List (String × ℚ)) (tokens : List String),
      (build_query_vector V idf (lemmatize_query lemma_of V tokens)).1 =
        (lemmatize_query lemma_of V tokens).filterMap (fun lm =>
          (lookupStr V lm).map (fun idx =>
            (idx, (1 / ((lemmatize_query lemma_of V tokens).length : ℚ)) *
              idfGet idf lm)))) :=
  ⟨lemmatize_query_dup_collapse, build_query_vector_weights⟩

/-- C3, counterexample: a corpus whose first document's extraction raises
(here "IOError") aborts create_inverted_index with that error — the claim
says the document is skipped and the build continues to an index. -/
theorem C3_counterexample :
    create_inverted_index (fun _ => ([], []))
      [("1", .error "IOError"), ("2", .ok "")] = .error "IOError" := rfl

/-- C3 (amended): create_inverted_index catches nothing. Documents whose
extracted text is empty are skipped (without logging) and the build
continues — an all-empty corpus yields the empty index — but an extraction
failure propagates and aborts the whole build, and processing any document
with nonempty text also aborts it, because
`_, _, doc_index = process_text(text)` unpacks three values from
process_text's 2-tuple and raises ValueError. -/
theorem C3_failures_abort_build :
    ∀ (pt : String → List String × List (String × List String)),
    (∀ docs, (∀ x ∈ docs, x.2 = Except.ok "") →
      create_inverted_index pt docs = .ok []) ∧
    (∀ (docs₁ : List (String × Except String String)) (d : String)
       (e : String) (docs₂ : List (String × Except String String)),
      (∀ x ∈ docs₁, x.2 = Except.ok "") →
      create_inverted_index pt (docs₁ ++ (d, .error e) :: docs₂) = .error e) ∧
    (∀ (docs₁ : List (String × Except String String)) (d : String)
       (t : String) (docs₂ : List (String × Except String String)),
      (∀ x ∈ docs₁, x.2 = Except.ok "") → t ≠ "" →
      create_inverted_index pt (docs₁ ++ (d, .ok t) :: docs₂) =
        .error "ValueError: not enough values to unpack (expected 3, got 2)") := by
  intro pt
  refine ⟨?_, ?_, ?_⟩
  · intro docs h
    have h2 := create_inverted_index_loop_skip_empty pt docs [] [] h
    rw [List.append_nil] at h2
    unfold create_inverted_index
    rw [h2]
    rfl
  · intro docs₁ d e docs₂ h
    unfold create_inverted_index
    rw [create_inverted_index_loop_skip_empty pt docs₁ _ [] h]
    rfl
  · intro docs₁ d t docs₂ h ht
    unfold create_inverted_index
    rw [create_inverted_index_loop_skip_empty pt docs₁ _ [] h]
    show create_inverted_index_loop pt ((d, .ok t) :: docs₂) [] = _
    simp only [create_inverted_index_loop]
    rw [if_neg ht]
    rfl

/-- C3, witness: an all-empty corpus builds the empty index; an extraction
error after an empty document aborts; a nonempty document aborts with the
unpack ValueError. -/
theorem C3_witness :
    create_inverted_index (fun _ => ([], []))
      [("1", Except.ok ""), ("2", Except.ok "")] = .ok [] ∧
    create_inverted_index (fun _ => ([], []))
      [("1", Except.ok ""), ("2", Except.error "boom")] = .error "boom" ∧
    create_inverted_index (fun _ => ([], [])) [("1", Except.ok "text")] =
      .error "ValueError: not enough values to unpack (expected 3, got 2)" :=
  ⟨(C3_failures_abort_build (fun _ => ([], []))).1
      [("1", Except.ok ""), ("2", Except.ok "")] (by simp),
   (C3_failures_abort_build (fun _ => ([], []))).2.1
      [("1", Except.ok "")] "2" "boom" [] (by simp),
   (C3_failures_abort_build (fun _ => ([], []))).2.2
      [] "1" "text" [] (by simp) (by decide)⟩

/-- C6, counterexample: build_sparse_vectors stores a zero weight — vector
{aa↦0} with vocabulary {aa↦0} is stored as {0↦0}, the key present with
weight 0 — and the tf_idf lemma output itself emits such zero lines (a
lemma of the document's lemma list with count 0 is written as
`lemma idf 0`), contradicting the claim that only nonzero weights are
stored. -/
theorem C6_counterexample :
    (build_sparse_vectors [("1", [("aa", 0)])] [("aa", 0)]).1 =
      [("1", [(0, 0)])] ∧
    lemma_tfidf_lines ["aa"] [] 1 [("aa", 5)] = [("aa", 5, 0)] := by
  constructor
  · have hv : lookupStr [("aa", 0)] "aa" = some 0 := by decide
    simp [build_sparse_vectors, hv]
  · simp only [lemma_tfidf_lines, lookupStr, List.insertionSort,
      List.orderedInsert, List.map_cons, List.map_nil, List.find?,
      beq_self_eq_true]
    norm_num

/-- C6 (amended): the stored sparse vector of each document consists of
exactly the in-vocabulary entries of its tf-idf map with the weights
unchanged — zero weights included — the stored norms are determined by the
stored vectors (squared norm = sum of squared stored weights), and a
document's norm is 0 exactly when its vector has no nonzero entry. -/
theorem C6_zero_weights_stored :
    ∀ (D : List (String × List (String × ℚ))) (V : List (String × Nat)),
    ((build_sparse_vectors D V).2 =
      (build_sparse_vectors D V).1.map (fun dv => (dv.1, sum_sq dv.2))) ∧
    (∀ p ∈ (build_sparse_vectors D V).1, ∀ q ∈ p.2,
      ∃ lm, lookupStr V lm = some q.1 ∧
        ∃ dv ∈ D, dv.1 = p.1 ∧ (lm, q.2) ∈ dv.2) ∧
    (∀ p ∈ (build_sparse_vectors D V).1,
      (sum_sq p.2 = 0 ↔ ∀ q ∈ p.2, q.2 = 0)) := by
  intro D V
  refine ⟨?_, ?_, fun p _ => sum_sq_eq_zero_iff p.2⟩
  · simp only [build_sparse_vectors, List.map_map]
    rfl
  · intro p hp q hq
    simp only [build_sparse_vectors, List.mem_map] at hp
    obtain ⟨dv, hdv, rfl⟩ := hp
    simp only [List.mem_filterMap] at hq
    obtain ⟨⟨lm, w⟩, hmemdv, hsome⟩ := hq
    rcases hv : lookupStr V lm with _ | idx
    · rw [hv] at hsome
      simp at hsome
    · rw [hv] at hsome
      simp only [Option.map_some'] at hsome
      obtain rfl := Option.some.inj hsome
      exact ⟨lm, hv, dv, hdv, rfl, hmemdv⟩

/-- C6, witness: the nonzero-entries characterization of the norm applied
to the stored vector of the concrete document of the counterexample. -/
theorem C6_witness :
    sum_sq [((0 : Nat), (0 : ℚ))] = 0 ↔ ∀ q ∈ [((0 : Nat), (0 : ℚ))], q.2 = 0 := by
  have hv : lookupStr [("aa", 0)] "aa" = some 0 := by decide
  have hmem : ("1", [((0 : Nat), (0 : ℚ))]) ∈
      (build_sparse_vectors [("1", [("aa", 0)])] [("aa", 0)]).1 := by
    simp [build_sparse_vectors, hv]
  exact (C6_zero_weights_stored [("1", [("aa", 0)])] [("aa", 0)]).2.2
    ("1", [(0, 0)]) hmem

end InfoSearch
